import Mathlib

/-
Verification development for the Graphite query adapter
(cmd/bosun/expr/tsdbs/graphite/graphite.go).

The adapter issues windowed queries against a Graphite backend, decodes the
JSON response into tagged series elements, and — for band queries — merges
several backward-shifted windows by tag-set identity.  The embedding below
translates the Go source; external collaborators (the opentsdb duration and
tag-validity helpers, json.Number parsing, the HTTP/cache transport and the
clock) are supplied through an explicit environment record, mirroring how the
Go code consumes them through `expr.State` and imported packages.
-/

set_option maxHeartbeats 1000000

namespace Graphite

/-- Time instants, as integer epoch seconds (Go `time.Time` at second
granularity: the decoder only ever constructs `time.Unix(ts, 0)`). -/
abbrev Time := Int

/-- Embeds `graphite.Request`: one query intent with a target expression and
the window's start and end instants (`Start`/`End` fields; `End` is renamed
`endT` because `end` is a Lean keyword). -/
structure Request where
  target : String
  start : Time
  endT : Time
deriving DecidableEq, Repr

/-- Association-list lookup keyed by decidable equality; embeds reading a Go
map (`m[k]`, first — and only, given unique keys — binding wins). -/
def lookupPairs {κ ν : Type} [DecidableEq κ] (k : κ) : List (κ × ν) → Option ν
  | [] => none
  | p :: rest => if p.1 = k then some p.2 else lookupPairs k rest

/-- Association-list insert keyed by decidable equality; embeds a Go map
write (`m[k] = v`): replaces the binding if the key is present, otherwise
adds it. -/
def insertPairs {κ ν : Type} [DecidableEq κ] (k : κ) (v : ν) : List (κ × ν) → List (κ × ν)
  | [] => [(k, v)]
  | p :: rest => if p.1 = k then (k, v) :: rest else p :: insertPairs k v rest

/-- Helper for `splitDot`: walk the characters, collecting the current
segment (in reverse) and emitting it at each dot. -/
def splitDotAux : List Char → List Char → List String
  | [], acc => [String.mk acc.reverse]
  | c :: rest, acc =>
    if c = '.' then String.mk acc.reverse :: splitDotAux rest []
    else splitDotAux rest (c :: acc)

/-- Embeds Go `strings.Split(s, ".")`: cut the string at every dot, keeping
empty segments, with `[""]` for the empty string. -/
def splitDot (s : String) : List String := splitDotAux s.data []

/-- Lexicographic comparison of character lists (helper for the canonical
tag-set form). -/
def charListLe : List Char → List Char → Bool
  | [], _ => true
  | _ :: _, [] => false
  | a :: as, b :: bs => if a = b then charListLe as bs else decide (a < b)

/-- Lexicographic string comparison used to sort tag keys canonically. -/
def strLe (a b : String) : Bool := charListLe a.data b.data

/-- Embeds `opentsdb.TagSet` (`map[string]string`), represented as an
association list with unique keys (all writes go through `TagSet.insert`). -/
structure TagSet where
  pairs : List (String × String)
deriving DecidableEq, Repr

/-- Map write `tags[k] = v`. -/
def TagSet.insert (t : TagSet) (k v : String) : TagSet :=
  ⟨insertPairs k v t.pairs⟩

/-- Map read `tags[k]`. -/
def TagSet.lookup (t : TagSet) (k : String) : Option String :=
  lookupPairs k t.pairs

/-- Modelled from the spec: `opentsdb.TagSet.Equal` is not under src/.  The
spec says two TagSets are equal iff they contain the same key-to-value pairs;
for maps of unique keys that is: same size and every binding of the receiver
present in the argument. -/
def TagSet.Equal (a b : TagSet) : Bool :=
  (a.pairs.length == b.pairs.length) &&
    a.pairs.all (fun p => b.lookup p.1 == some p.2)

/-- Insertion of a string into a `≤`-sorted list of strings (helper for the
canonical form below). -/
def insertSortedStr (k : String) : List String → List String
  | [] => [k]
  | x :: xs => if strLe k x then k :: x :: xs else x :: insertSortedStr k xs

/-- Modelled from the spec: `opentsdb.TagSet.String` is not under src/.  The
spec only requires a canonical string form used for uniqueness checks: keys
are sorted, each rendered `k=v`, joined by commas inside braces. -/
def TagSet.canon (t : TagSet) : String :=
  let ks := (t.pairs.map Prod.fst).foldr insertSortedStr []
  "\x7b" ++ String.intercalate "," (ks.map (fun k => k ++ "=" ++ ((t.lookup k).getD ""))) ++ "\x7d"

/-- Modelled from the spec: `opentsdb.TagSet.Valid` is not under src/.  The
spec says a TagSet is valid iff every key and value pass a character-validity
predicate and keys are non-empty; the character predicate itself is an
external parameter (`ok`). -/
def TagSet.valid (t : TagSet) (ok : String → Bool) : Bool :=
  t.pairs.all (fun p => (!(p.1 == "")) && ok p.1 && ok p.2)

/-- Embeds one entry of `graphite.Response`: a series name (`Target`) and its
datapoints, each datapoint a list of `json.Number` tokens kept here as raw
strings (a `null` JSON value renders as the empty token, which is what the
Go code's `len(dp[0].String()) == 0` test detects). -/
structure RawSeries where
  target : String
  datapoints : List (List String)
deriving DecidableEq, Repr

/-- Embeds an `expr.Series` (`map[time.Time]float64`): an association list
from instants to values.  The value type is a parameter `V` because the Go
value type (`float64`) enters this code only through `json.Number.Float64`,
an external parser supplied in the environment. -/
abbrev Series (V : Type) := List (Time × V)

/-- Embeds `expr.Element`: one decoded series with its grouping tags.  The Go
field `Value` is an `interface{}` that in this adapter always holds an
`expr.Series` (the band merge type-asserts exactly that), so the embedding
fixes it to `Series V`. -/
structure Element (V : Type) where
  value : Series V
  group : TagSet
deriving DecidableEq, Repr

/-- Embeds `expr.ValueSet`: the ordered elements plus the two join-control
flags, which are `false` in a freshly allocated Go struct. -/
structure ValueSet (V : Type) where
  elements : List (Element V)
  ignoreUnjoined : Bool := false
  ignoreOtherUnjoined : Bool := false
deriving DecidableEq, Repr

/-- Decode errors raised by `parseGraphiteResponse`; each constructor embeds
one `fmt.Errorf(parseErrFmt, req.URL, …)` site and carries the URL plus the
data that the Go message interpolates. -/
inductive ParseErr where
  | emptyResponse (url : String)
  | formatMismatch (url target : String) (formatTags : List String)
  | invalidTags (url target canonStr : String)
  | duplicateTags (url canonStr : String)
  | datapointFields (url : String) (dp : List String)
  | badFloat (url tok : String)
  | badInt (url tok : String)
deriving DecidableEq, Repr

/-- Errors surfaced by `Band`/`Query`: failed duration parses, the `num`
bounds validation, transport failures, and decode failures. -/
inductive BandErr where
  | badDuration (s : String)
  | numOutOfBounds
  | transport (msg : String)
  | decode (e : ParseErr)
deriving DecidableEq, Repr

/-- Environment of external collaborators, mirroring what the Go code reaches
through `expr.State` and imported packages.
  * `now` — `e.Now()`, the caller-supplied evaluation instant.
  * `transport` — `timeRequest` (cache-aware `e.Graphite.Query`); modelled
    from the spec as an injected request-to-response function, since the
    transport and cache are external collaborators.
  * `parseFloat` / `parseInt` — `json.Number.Float64` / `json.Number.Int64`,
    external numeric parsers (`none` = parse failure).
  * `parseDuration` — `opentsdb.ParseDuration`, external duration parser.
  * `validStr` — the opentsdb tag character-validity predicate.
  * `urlOf` — the URL the graphite client records on a request, used only in
    error messages. -/
structure Env (V : Type) where
  now : Time
  transport : Request → Except String (List RawSeries)
  parseFloat : String → Option V
  parseInt : String → Option Int
  parseDuration : String → Option Int
  validStr : String → Bool
  urlOf : Request → String

variable {V : Type}

/-- Embeds the tag-building block of `parseGraphiteResponse`
(graphite.go:45-56): fold `tags[key] = nodes[i]` over format/name segment
pairs, skipping empty format segments (`if len(key) > 0`). -/
def assignTags : List (String × String) → TagSet → TagSet
  | [], t => t
  | p :: rest, t => assignTags rest (if 0 < p.1.length then t.insert p.1 p.2 else t)

/-- Embeds the tag-set computation for one series (graphite.go:43-56):
the `formatTags = [""]` special case uses the whole name under the fixed key
`"key"`; otherwise the name is split on `.`, a shorter name than the format
is a mismatch (`none`, turned into a decode error by the caller), and the
positional segments are assigned. -/
def buildTags (formatTags : List String) (target : String) : Option TagSet :=
  if formatTags = [""] then
    some (TagSet.insert ⟨[]⟩ "key" target)
  else
    let nodes := splitDot target
    if nodes.length < formatTags.length then none
    else some (assignTags (formatTags.zip nodes) ⟨[]⟩)

/-- Embeds the datapoint loop of `parseGraphiteResponse` (graphite.go:68-88):
a datapoint must have exactly two tokens; an empty value token (a JSON null)
is skipped; otherwise the value parses as a float and the timestamp as an
integer, and the pair is written into the series map. -/
def buildSeries (env : Env V) (url : String) : List (List String) → Series V → Except ParseErr (Series V)
  | [], acc => .ok acc
  | dp :: rest, acc =>
    match dp with
    | [v0, t0] =>
      if v0 = "" then buildSeries env url rest acc
      else
        match env.parseFloat v0 with
        | none => .error (.badFloat url v0)
        | some val =>
          match env.parseInt t0 with
          | none => .error (.badInt url t0)
          | some ts => buildSeries env url rest (insertPairs ts val acc)
    | _ => .error (.datapointFields url dp)

/-- Embeds the per-series loop of `parseGraphiteResponse` (graphite.go:41-94):
build tags, check validity, reject a canonical tag string already `seen` in
this decode call, decode the datapoints, and append the element in response
order. -/
def parseLoop (env : Env V) (url : String) (formatTags : List String) :
    List RawSeries → List String → List (Element V) → Except ParseErr (List (Element V))
  | [], _, results => .ok results
  | res :: rest, seen, results =>
    match buildTags formatTags res.target with
    | none => .error (.formatMismatch url res.target formatTags)
    | some tags =>
      if tags.valid env.validStr then
        if seen.contains tags.canon then .error (.duplicateTags url tags.canon)
        else
          match buildSeries env url res.datapoints [] with
          | .error e => .error e
          | .ok dps => parseLoop env url formatTags rest (tags.canon :: seen) (results ++ [⟨dps, tags⟩])
      else .error (.invalidTags url res.target tags.canon)

/-- Embeds `parseGraphiteResponse` (graphite.go:33-95): an empty response is
itself a decode error; otherwise the per-series loop runs with an empty
`seen` set and empty accumulator. -/
def parseGraphiteResponse (env : Env V) (req : Request) (s : List RawSeries) (formatTags : List String) :
    Except ParseErr (List (Element V)) :=
  if s.length = 0 then .error (.emptyResponse (env.urlOf req))
  else parseLoop env (env.urlOf req) formatTags s [] []

/-- Embeds `for k, v := range result.Value { dst[k] = v }` (graphite.go:155-157):
write every pair of `src` into `dst`, overwriting colliding timestamps.  Go
map iteration order is unspecified, but the series built by the decoder have
unique keys, for which any order gives this fold's result. -/
def writeSeries (dst src : Series V) : Series V :=
  src.foldl (fun acc p => insertPairs p.1 p.2 acc) dst

/-- Embeds the inner search loop of the band merge (graphite.go:140-146):
first index, in order, whose group the new result's group `Equal`s. -/
def findGroupIdx (g : TagSet) : List (Element V) → Nat → Option Nat
  | [], _ => none
  | ex :: rest, j => if TagSet.Equal g ex.group then some j else findGroupIdx g rest (j + 1)

/-- Replace the series of the element at index `j` by its merge with `src`
(embeds `r.Elements[updateKey].Value.(expr.Series)[k] = v`). -/
def writeInto (es : List (Element V)) (j : Nat) (src : Series V) : List (Element V) :=
  match es, j with
  | [], _ => []
  | e :: rest, 0 => ⟨writeSeries e.value src, e.group⟩ :: rest
  | e :: rest, Nat.succ j => e :: writeInto rest j src

/-- Embeds one step of the band merge (graphite.go:139-158): look for an
existing element with an `Equal` group; if none, append the new result (and
the subsequent write loop then writes the result's own pairs into itself);
if found, write the result's pairs into the existing element. -/
def mergeOne (elems : List (Element V)) (result : Element V) : List (Element V) :=
  match findGroupIdx result.group elems 0 with
  | some j => writeInto elems j result.value
  | none => writeInto (elems ++ [result]) elems.length result.value

/-- Embeds the window loop of `Band` (graphite.go:122-160).  Each iteration
first steps `now` back by the period, issues the request for
`[now - d, now]` (recording it in the audit list — `timeRequest` appends to
`e.GraphiteQueries` before querying, so failed queries are still recorded),
decodes, and either installs (`i = 0`) or merges (`i > 0`) the decoded
elements. -/
def bandLoop (env : Env V) (query : String) (d p : Int) (formatTags : List String) :
    Nat → Nat → Time → List (Element V) → List Request →
    Except BandErr (List (Element V)) × List Request
  | 0, _, _, elems, audit => (.ok elems, audit)
  | Nat.succ fuel, i, now, elems, audit =>
    match env.transport ⟨query, now - p - d, now - p⟩ with
    | .error msg => (.error (.transport msg), audit ++ [⟨query, now - p - d, now - p⟩])
    | .ok s =>
      match parseGraphiteResponse env ⟨query, now - p - d, now - p⟩ s formatTags with
      | .error pe => (.error (.decode pe), audit ++ [⟨query, now - p - d, now - p⟩])
      | .ok results =>
        bandLoop env query d p formatTags fuel (i + 1) (now - p)
          (if i = 0 then results else results.foldl mergeOne elems)
          (audit ++ [⟨query, now - p - d, now - p⟩])

/-- Embeds `Band` (graphite.go:98-168), with `num` taken at integer values of
the Go `float64` argument (the loop bound `int(num)` truncates toward zero,
which on integers is `Int.toNat` for the loop's purposes: a negative bound
runs zero iterations).  One point needs care: the Go bounds check
`if num < 1 || num > 100 { err = … }` sets `err` but does not return, so the
validation error survives only if the window loop runs zero iterations — the
loop's first `s, err = timeRequest(e, req)` assignment overwrites it.  The
translation therefore reports `numOutOfBounds` only when `num` is out of
bounds and the loop ran no iteration; otherwise the loop's own outcome (which
can be success) is returned, exactly as the source behaves.  The second
component is the audit list of issued requests (`e.GraphiteQueries`). -/
def Band (env : Env V) (query duration period format : String) (num : Int) :
    Except BandErr (ValueSet V) × List Request :=
  match env.parseDuration duration with
  | none => (.error (.badDuration duration), [])
  | some d =>
    match env.parseDuration period with
    | none => (.error (.badDuration period), [])
    | some p =>
      match bandLoop env query d p (splitDot format) num.toNat 0 env.now [] [] with
      | (.error e, audit) => (.error e, audit)
      | (.ok elems, audit) =>
        if (num < 1 ∨ num > 100) ∧ num.toNat = 0 then
          (.error .numOutOfBounds, audit)
        else
          (.ok { elements := elems, ignoreUnjoined := true, ignoreOtherUnjoined := true }, audit)

/-- Embeds `Query` (graphite.go:171-200): one request over
`[now - sduration, now - eduration]` with an empty `eduration` meaning zero
offset; the decoded elements are returned as-is with the join flags left at
their zero values. -/
def Query (env : Env V) (query sduration eduration format : String) :
    Except BandErr (ValueSet V) × List Request :=
  match env.parseDuration sduration with
  | none => (.error (.badDuration sduration), [])
  | some sd =>
    match (if eduration = "" then some 0 else env.parseDuration eduration) with
    | none => (.error (.badDuration eduration), [])
    | some ed =>
      match env.transport ⟨query, env.now - sd, env.now - ed⟩ with
      | .error msg => (.error (.transport msg), [⟨query, env.now - sd, env.now - ed⟩])
      | .ok s =>
        match parseGraphiteResponse env ⟨query, env.now - sd, env.now - ed⟩ s (splitDot format) with
        | .error pe => (.error (.decode pe), [⟨query, env.now - sd, env.now - ed⟩])
        | .ok results => (.ok { elements := results }, [⟨query, env.now - sd, env.now - ed⟩])

/-- Boolean success test for `Except` results. -/
def exceptOk {ε α : Type} : Except ε α → Bool
  | .ok _ => true
  | .error _ => false

/-- The sequence of requests the band window loop issues starting from
instant `now`: each step first moves `now` back by `p` and spans the lookback
`d` ending there.  Used to characterise the audit list produced by
`bandLoop`. -/
def windowReqs (query : String) (d p : Int) : Nat → Time → List Request
  | 0, _ => []
  | Nat.succ k, now => ⟨query, now - p - d, now - p⟩ :: windowReqs query d p k (now - p)

/-- A concrete test environment over `V = Int`: the evaluation instant is 0,
the transport always answers with one series named `t` carrying no
datapoints, and the parsers recognise the few literals used in concrete
runs. -/
def env3 : Env Int where
  now := 0
  transport := fun _ => .ok [⟨"t", []⟩]
  parseFloat := fun s => if s = "4" then some 4 else if s = "2" then some 2 else none
  parseInt := fun s => if s = "7" then some 7 else if s = "9" then some 9 else none
  parseDuration := fun s => if s = "1h" then some 3600 else none
  validStr := fun _ => true
  urlOf := fun _ => "u"

/-- Concrete element tagged `h=a` with values at timestamps 1 and 2. -/
def mOld : Element Int := ⟨[(1, 10), (2, 20)], ⟨[("h", "a")]⟩⟩

/-- Concrete accumulated result set for a merge run: just `mOld`. -/
def mElems : List (Element Int) := [mOld]

/-- Concrete freshly decoded element with the same tag-set: values at
timestamps 2 (colliding) and 3 (new). -/
def mR : Element Int := ⟨[(2, 99), (3, 30)], ⟨[("h", "a")]⟩⟩

/-- The element `mElems.head` is expected to become after merging `mR` into
it: union of timestamps, with the later value winning at timestamp 2. -/
def mMerged : Element Int := ⟨[(1, 10), (2, 99), (3, 30)], ⟨[("h", "a")]⟩⟩

end Graphite

namespace Graphite

variable {V : Type}

theorem lookupPairs_insertPairs_self {κ ν : Type} [DecidableEq κ] (k : κ) (v : ν)
    (l : List (κ × ν)) : lookupPairs k (insertPairs k v l) = some v := by
  induction l with
  | nil => simp [insertPairs, lookupPairs]
  | cons p rest ih =>
    by_cases h : p.1 = k
    · simp [insertPairs, h, lookupPairs]
    · simp [insertPairs, h, lookupPairs, ih]

theorem lookupPairs_insertPairs_other {κ ν : Type} [DecidableEq κ] (k k0 : κ) (v : ν)
    (l : List (κ × ν)) (h : k0 ≠ k) :
    lookupPairs k (insertPairs k0 v l) = lookupPairs k l := by
  induction l with
  | nil => simp [insertPairs, lookupPairs, h]
  | cons p rest ih =>
    by_cases hp : p.1 = k0
    · simp [insertPairs, hp, lookupPairs, h, hp.symm ▸ h]
    · by_cases hk : p.1 = k
      · simp [insertPairs, hp, lookupPairs, hk, Ne.symm h]
      · simp [insertPairs, hp, lookupPairs, hk, ih]

theorem lookupPairs_eq_none {κ ν : Type} [DecidableEq κ] (k : κ) (l : List (κ × ν))
    (h : k ∉ l.map Prod.fst) : lookupPairs k l = none := by
  induction l with
  | nil => rfl
  | cons p rest ih =>
    simp only [List.map_cons, List.mem_cons, not_or] at h
    simp [lookupPairs, Ne.symm h.1, ih h.2]

theorem writeSeries_lookup_none (dst src : Series V) (t : Time)
    (h : lookupPairs t src = none) :
    lookupPairs t (writeSeries dst src) = lookupPairs t dst := by
  induction src generalizing dst with
  | nil => rfl
  | cons p rest ih =>
    by_cases hp : p.1 = t
    · simp [lookupPairs, hp] at h
    · simp only [lookupPairs, hp, if_false, if_neg hp] at h
      have : writeSeries dst (p :: rest) = writeSeries (insertPairs p.1 p.2 dst) rest := rfl
      rw [this, ih _ h, lookupPairs_insertPairs_other _ _ _ _ hp]

theorem writeSeries_lookup_some (dst src : Series V) (t : Time) (v : V)
    (hnd : (src.map Prod.fst).Nodup) (h : lookupPairs t src = some v) :
    lookupPairs t (writeSeries dst src) = some v := by
  induction src generalizing dst with
  | nil => simp [lookupPairs] at h
  | cons p rest ih =>
    simp only [List.map_cons, List.nodup_cons] at hnd
    have hw : writeSeries dst (p :: rest) = writeSeries (insertPairs p.1 p.2 dst) rest := rfl
    by_cases hp : p.1 = t
    · simp only [lookupPairs, hp, if_pos rfl, if_true] at h
      have hrest : lookupPairs t rest = none := by
        refine lookupPairs_eq_none t rest ?_
        rw [← hp]; exact hnd.1
      rw [hw, writeSeries_lookup_none _ _ _ hrest, ← hp,
        lookupPairs_insertPairs_self]
      rw [h]
    · simp only [lookupPairs, hp, if_neg hp] at h
      rw [hw, ih _ hnd.2 h]

theorem writeSeries_lookupPairs (dst src : Series V) (t : Time)
    (hnd : (src.map Prod.fst).Nodup) :
    lookupPairs t (writeSeries dst src) =
      match lookupPairs t src with
      | some v => some v
      | none => lookupPairs t dst := by
  cases h : lookupPairs t src with
  | none => simpa using writeSeries_lookup_none dst src t h
  | some v => simpa using writeSeries_lookup_some dst src t v hnd h

end Graphite

namespace Graphite

variable {V : Type}

theorem get?_some_lt {α : Type} : ∀ (l : List α) (i : Nat) (x : α), l.get? i = some x → i < l.length := by
  intro l
  induction l with
  | nil => intro i x h; simp [List.get?] at h
  | cons a rest ih =>
    intro i x h
    cases i with
    | zero => simp
    | succ i =>
      have := ih i x (by simpa [List.get?] using h)
      simp only [List.length_cons]
      omega

theorem get?_isSome_of_lt {α : Type} : ∀ (l : List α) (i : Nat), i < l.length → ∃ x, l.get? i = some x := by
  intro l
  induction l with
  | nil => intro i h; simp at h
  | cons a rest ih =>
    intro i h
    cases i with
    | zero => exact ⟨a, rfl⟩
    | succ i =>
      obtain ⟨x, hx⟩ := ih i (by simp at h; omega)
      exact ⟨x, by simpa [List.get?] using hx⟩

theorem getD_of_get? {α : Type} (l : List α) (j : Nat) (x d : α) (h : l.get? j = some x) :
    l.getD j d = x := by
  rw [List.get?_eq_getElem?] at h
  simp [List.getD, h]

theorem zip_get? {α β : Type} : ∀ (l1 : List α) (l2 : List β) (i : Nat),
    (l1.zip l2).get? i = match l1.get? i, l2.get? i with
      | some x, some y => some (x, y)
      | _, _ => none := by
  intro l1
  induction l1 with
  | nil => intro l2 i; cases l2 <;> cases i <;> simp [List.zip, List.get?]
  | cons a rest ih =>
    intro l2 i
    cases l2 with
    | nil => cases i <;> simp [List.zip, List.get?]
    | cons b rest2 =>
      cases i with
      | zero => simp [List.zip, List.get?]
      | succ i => simpa [List.zip, List.get?] using ih rest2 i

theorem split_at_get? {α : Type} : ∀ (l : List α) (i : Nat) (x : α), l.get? i = some x →
    l = l.take i ++ x :: l.drop (i + 1) := by
  intro l
  induction l with
  | nil => intro i x h; simp [List.get?] at h
  | cons a rest ih =>
    intro i x h
    cases i with
    | zero =>
      simp [List.get?] at h
      simp [List.take, List.drop, h]
    | succ i =>
      have := ih i x (by simpa [List.get?] using h)
      simpa [List.take, List.drop] using this

theorem mem_drop_get? {α : Type} : ∀ (l : List α) (m : Nat) (x : α), x ∈ l.drop m →
    ∃ j, m ≤ j ∧ l.get? j = some x := by
  intro l
  induction l with
  | nil => intro m x h; simp at h
  | cons a rest ih =>
    intro m x h
    cases m with
    | zero =>
      simp at h
      rcases h with h | h
      · exact ⟨0, Nat.le_refl 0, by simp [List.get?, h]⟩
      · obtain ⟨j, -, hj⟩ := ih 0 x (by simpa using h)
        exact ⟨j + 1, by omega, by simpa [List.get?] using hj⟩
    | succ m =>
      obtain ⟨j, hle, hj⟩ := ih m x (by simpa [List.drop] using h)
      exact ⟨j + 1, by omega, by simpa [List.get?] using hj⟩

theorem zip_fst_mem {α β : Type} : ∀ (l1 : List α) (l2 : List β) (p : α × β),
    p ∈ l1.zip l2 → p.1 ∈ l1 := by
  intro l1
  induction l1 with
  | nil => intro l2 p h; simp [List.zip] at h
  | cons a rest ih =>
    intro l2 p h
    cases l2 with
    | nil => simp [List.zip] at h
    | cons b rest2 =>
      simp [List.zip] at h
      rcases h with h | h
      · simp [h]
      · exact List.mem_cons_of_mem _ (ih rest2 p (by simpa [List.zip] using h))

theorem str_length_pos (s : String) (h : s ≠ "") : 0 < s.length := by
  cases s with
  | mk data =>
    cases data with
    | nil => exact absurd rfl h
    | cons c cs => simp [String.length]

theorem TagSet.lookup_insert_self (t : TagSet) (k v : String) :
    (t.insert k v).lookup k = some v :=
  lookupPairs_insertPairs_self k v t.pairs

theorem TagSet.lookup_insert_other (t : TagSet) (k k0 v : String) (h : k0 ≠ k) :
    (t.insert k0 v).lookup k = t.lookup k :=
  lookupPairs_insertPairs_other k k0 v t.pairs h

theorem assignTags_lookup_skip : ∀ (ps : List (String × String)) (t0 : TagSet) (k : String),
    (∀ p ∈ ps, 0 < p.1.length → p.1 ≠ k) →
    (assignTags ps t0).lookup k = t0.lookup k := by
  intro ps
  induction ps with
  | nil => intro t0 k _; rfl
  | cons p rest ih =>
    intro t0 k h
    have hrest : ∀ q ∈ rest, 0 < q.1.length → q.1 ≠ k :=
      fun q hq => h q (List.mem_cons_of_mem _ hq)
    show (assignTags rest (if 0 < p.1.length then t0.insert p.1 p.2 else t0)).lookup k = _
    by_cases hl : 0 < p.1.length
    · rw [if_pos hl, ih _ k hrest,
        TagSet.lookup_insert_other t0 k p.1 p.2 (h p (List.mem_cons_self _ _) hl)]
    · rw [if_neg hl, ih _ k hrest]

theorem assignTags_lookup_hit (ps2 : List (String × String)) :
    ∀ (ps1 : List (String × String)) (t0 : TagSet) (k v : String),
      0 < k.length → (∀ p ∈ ps2, 0 < p.1.length → p.1 ≠ k) →
      (assignTags (ps1 ++ (k, v) :: ps2) t0).lookup k = some v := by
  intro ps1
  induction ps1 with
  | nil =>
    intro t0 k v hk h2
    show (assignTags ((k, v) :: ps2) t0).lookup k = some v
    show (assignTags ps2 (if 0 < (k, v).1.length then t0.insert (k, v).1 (k, v).2 else t0)).lookup k = some v
    rw [if_pos hk, assignTags_lookup_skip ps2 _ k h2, TagSet.lookup_insert_self]
  | cons p rest ih =>
    intro t0 k v hk h2
    show (assignTags (rest ++ (k, v) :: ps2) (if 0 < p.1.length then t0.insert p.1 p.2 else t0)).lookup k = some v
    exact ih _ k v hk h2

end Graphite

namespace Graphite

variable {V : Type}

/-- C6: the decoder computes each series' TagSet as specified: the exact
format list `[""]` yields the single-key TagSet binding `"key"` to the full
series name; otherwise the name is split on dots, a name with fewer segments
than the format is a decode error (`none` here, mapped to a decode error by
the per-series loop), every key the resulting TagSet binds is a non-empty
format segment, and a non-empty format segment with no later duplicate is
bound to the name segment at its position (empty format positions are
dropped). -/
theorem buildTags_characterization (ft : List String) (target : String) :
    (ft = [""] → buildTags ft target = some ⟨[("key", target)]⟩) ∧
    (ft ≠ [""] → (splitDot target).length < ft.length → buildTags ft target = none) ∧
    (ft ≠ [""] → ft.length ≤ (splitDot target).length →
      ∀ t, buildTags ft target = some t →
        (∀ k, t.lookup k ≠ none → k ≠ "" ∧ k ∈ ft) ∧
        (∀ i ki, ft.get? i = some ki → ki ≠ "" →
          (∀ j, j < ft.length → i < j → ft.getD j "" ≠ ki) →
          t.lookup ki = (splitDot target).get? i)) := by
  refine ⟨?_, ?_, ?_⟩
  · intro h; subst h; rfl
  · intro h hlt
    simp [buildTags, h, hlt]
  · intro h hle t ht
    have ht' : t = assignTags (ft.zip (splitDot target)) ⟨[]⟩ := by
      simp [buildTags, h, Nat.not_lt.mpr hle] at ht
      exact ht.symm
    subst ht'
    constructor
    · intro k hk
      by_cases hk1 : k ≠ "" ∧ k ∈ ft
      · exact hk1
      · exfalso
        apply hk
        have hskip : ∀ p ∈ ft.zip (splitDot target), 0 < p.1.length → p.1 ≠ k := by
          intro p hp hl heq
          apply hk1
          refine ⟨?_, ?_⟩
          · rw [← heq]
            intro h0
            rw [h0] at hl
            exact absurd hl (by decide)
          · rw [← heq]
            exact zip_fst_mem ft _ p hp
        rw [assignTags_lookup_skip _ _ _ hskip]
        rfl
    · intro i ki hgi hki hnolater
      have hi : i < ft.length := get?_some_lt ft i ki hgi
      have hilen : i < (splitDot target).length := lt_of_lt_of_le hi hle
      obtain ⟨ni, hni⟩ := get?_isSome_of_lt (splitDot target) i hilen
      have hzg : (ft.zip (splitDot target)).get? i = some (ki, ni) := by
        rw [zip_get?, hgi, hni]
      have hsplit := split_at_get? _ i (ki, ni) hzg
      have h2 : ∀ p ∈ (ft.zip (splitDot target)).drop (i + 1), 0 < p.1.length → p.1 ≠ ki := by
        intro p hp hl
        obtain ⟨j, hj, hgj⟩ := mem_drop_get? _ (i + 1) p hp
        have hzj := zip_get? ft (splitDot target) j
        rw [hgj] at hzj
        cases hfj : ft.get? j with
        | none => rw [hfj] at hzj; simp at hzj
        | some kj =>
          cases hnj : (splitDot target).get? j with
          | none => rw [hfj, hnj] at hzj; simp at hzj
          | some nj =>
            rw [hfj, hnj] at hzj
            simp only [Option.some.injEq] at hzj
            have hjlen : j < ft.length := get?_some_lt ft j kj hfj
            have hne := hnolater j hjlen (by omega)
            rw [getD_of_get? ft j kj "" hfj] at hne
            rw [hzj]
            exact hne
      rw [hni, hsplit, assignTags_lookup_hit _ _ _ ki ni (str_length_pos ki hki) h2]

/-- Witness for C6 at the spec's two examples: format `""` with name
`foo.bar`, and format `host..` with name `web1.cpu.idle`. -/
theorem buildTags_characterization_witness :
    buildTags [""] "foo.bar" = some ⟨[("key", "foo.bar")]⟩ ∧
    buildTags ["host", "", ""] "web1.cpu.idle" = some ⟨[("host", "web1")]⟩ ∧
    TagSet.lookup ⟨[("host", "web1")]⟩ "host" = some "web1" ∧
    TagSet.lookup ⟨[("host", "web1")]⟩ "" = none := by
  have h1 := (buildTags_characterization [""] "foo.bar").1 rfl
  have h3 := (buildTags_characterization ["host", "", ""] "web1.cpu.idle").2.2
    (by decide) (by decide) ⟨[("host", "web1")]⟩ (by decide)
  have h4 := h3.2 0 "host" rfl (by decide) (by decide)
  exact ⟨h1, by decide, h4.trans (by decide), by decide⟩

/-- C7: one step of the datapoint decoder: a datapoint without exactly two
tokens is a decode error; an empty value token (the explicit "no value"
marker) is skipped and decoding continues on the remaining datapoints;
a failed float parse of the value or integer parse of the timestamp is a
decode error; otherwise the parsed value is stored in the series keyed by the
parsed timestamp and visible there. -/
theorem buildSeries_step (env : Env V) (url : String) (dp : List String)
    (rest : List (List String)) (acc : Series V) :
    (dp.length ≠ 2 → buildSeries env url (dp :: rest) acc = .error (.datapointFields url dp)) ∧
    (∀ ts, dp = ["", ts] → buildSeries env url (dp :: rest) acc = buildSeries env url rest acc) ∧
    (∀ v ts, dp = [v, ts] → v ≠ "" → env.parseFloat v = none →
      buildSeries env url (dp :: rest) acc = .error (.badFloat url v)) ∧
    (∀ v ts x, dp = [v, ts] → v ≠ "" → env.parseFloat v = some x → env.parseInt ts = none →
      buildSeries env url (dp :: rest) acc = .error (.badInt url ts)) ∧
    (∀ v ts x n, dp = [v, ts] → v ≠ "" → env.parseFloat v = some x → env.parseInt ts = some n →
      buildSeries env url (dp :: rest) acc = buildSeries env url rest (insertPairs n x acc) ∧
      lookupPairs n (insertPairs n x acc) = some x) := by
  refine ⟨?_, ?_, ?_, ?_, ?_⟩
  · intro hlen
    rcases dp with _ | ⟨a, _ | ⟨b, _ | ⟨c, tl⟩⟩⟩
    · simp [buildSeries]
    · simp [buildSeries]
    · exact absurd rfl hlen
    · simp [buildSeries]
  · intro ts h
    subst h
    simp [buildSeries]
  · intro v ts h hv hf
    subst h
    simp [buildSeries, hv, hf]
  · intro v ts x h hv hf hi
    subst h
    simp [buildSeries, hv, hf, hi]
  · intro v ts x n h hv hf hi
    subst h
    refine ⟨by simp [buildSeries, hv, hf, hi], lookupPairs_insertPairs_self n x acc⟩

/-- Witness for C7 over `env3`: the "no value" datapoint is skipped while the
rest of the series decodes, a one-token datapoint is an error, and a stored
value is retrievable at its timestamp. -/
theorem buildSeries_step_witness :
    buildSeries env3 "u" [["", "9"], ["4", "7"]] [] = buildSeries env3 "u" [["4", "7"]] [] ∧
    buildSeries env3 "u" [["x1"]] [] = .error (.datapointFields "u" ["x1"]) ∧
    buildSeries env3 "u" [["4", "7"]] [] = buildSeries env3 "u" [] [(7, 4)] ∧
    lookupPairs 7 (insertPairs (7 : Int) (4 : Int) []) = some 4 := by
  have hs := (buildSeries_step env3 "u" ["", "9"] [["4", "7"]] []).2.1 "9" rfl
  have he := (buildSeries_step env3 "u" ["x1"] [] []).1 (by decide)
  have hv := (buildSeries_step env3 "u" ["4", "7"] [] []).2.2.2.2 "4" "7" 4 7 rfl
    (by decide) (by decide) (by decide)
  exact ⟨hs, he, hv.1, hv.2⟩

end Graphite

namespace Graphite

variable {V : Type}

/-- C4: decoding a response with zero series always fails with the
"empty response" decode error carrying the request's URL; it never returns an
empty element list. -/
theorem parse_empty_response (env : Env V) (req : Request) (ft : List String) :
    parseGraphiteResponse env req [] ft = .error (.emptyResponse (env.urlOf req)) := rfl

theorem parseLoop_step_ok (env : Env V) (url : String) (ft : List String)
    (res : RawSeries) (rest : List RawSeries) (seen : List String) (acc : List (Element V))
    (tags : TagSet) (h1 : buildTags ft res.target = some tags)
    (h2 : tags.valid env.validStr = true) (h3 : seen.contains tags.canon = false)
    (dps : Series V) (h4 : buildSeries env url res.datapoints [] = .ok dps) :
    parseLoop env url ft (res :: rest) seen acc =
      parseLoop env url ft rest (tags.canon :: seen) (acc ++ [⟨dps, tags⟩]) := by
  have h3' : tags.canon ∉ seen := by simpa using h3
  simp [parseLoop, h1, h2, h3', h4]

theorem parseLoop_step_dup (env : Env V) (url : String) (ft : List String)
    (res : RawSeries) (rest : List RawSeries) (seen : List String) (acc : List (Element V))
    (tags : TagSet) (h1 : buildTags ft res.target = some tags)
    (h2 : tags.valid env.validStr = true) (h3 : seen.contains tags.canon = true) :
    parseLoop env url ft (res :: rest) seen acc = .error (.duplicateTags url tags.canon) := by
  have h3' : tags.canon ∈ seen := by simpa using h3
  simp [parseLoop, h1, h2, h3']

/-- C5: a response of two series whose computed TagSets have the same
canonical string fails with the duplicate-identity decode error carrying the
request's URL and the duplicated canonical string, returning no elements
(the first series must itself decode cleanly for control to reach the second
one). -/
theorem parse_duplicate_tagset (env : Env V) (req : Request) (ft : List String)
    (a b : RawSeries) (ta tb : TagSet)
    (hta : buildTags ft a.target = some ta) (htb : buildTags ft b.target = some tb)
    (hva : ta.valid env.validStr = true) (hvb : tb.valid env.validStr = true)
    (hcanon : ta.canon = tb.canon)
    (sa : Series V) (hsa : buildSeries env (env.urlOf req) a.datapoints [] = .ok sa) :
    parseGraphiteResponse env req [a, b] ft = .error (.duplicateTags (env.urlOf req) tb.canon) := by
  have e1 : parseGraphiteResponse env req [a, b] ft = parseLoop env (env.urlOf req) ft [a, b] [] [] := by
    simp [parseGraphiteResponse]
  rw [e1,
    parseLoop_step_ok env (env.urlOf req) ft a [b] [] [] ta hta hva rfl sa hsa,
    parseLoop_step_dup env (env.urlOf req) ft b [] [ta.canon] _ tb htb hvb
      (by simp [List.contains, ← hcanon])]

/-- Witness for C5: two series both named `x` under the single-key format
produce the same canonical tag string and the decode fails with the
duplicate-identity error. -/
theorem parse_duplicate_tagset_witness :
    parseGraphiteResponse env3 ⟨"m", 0, 0⟩ [⟨"x", []⟩, ⟨"x", []⟩] [""] =
      .error (.duplicateTags "u" (TagSet.canon ⟨[("key", "x")]⟩)) :=
  parse_duplicate_tagset env3 ⟨"m", 0, 0⟩ [""] ⟨"x", []⟩ ⟨"x", []⟩
    ⟨[("key", "x")]⟩ ⟨[("key", "x")]⟩ rfl rfl rfl rfl rfl [] rfl

end Graphite

namespace Graphite

variable {V : Type}

theorem writeInto_length : ∀ (es : List (Element V)) (j : Nat) (src : Series V),
    (writeInto es j src).length = es.length := by
  intro es
  induction es with
  | nil => intro j src; rfl
  | cons e rest ih =>
    intro j src
    cases j with
    | zero => rfl
    | succ j => simp [writeInto, ih]

theorem writeInto_get?_ne : ∀ (es : List (Element V)) (j j2 : Nat) (src : Series V), j2 ≠ j →
    (writeInto es j src).get? j2 = es.get? j2 := by
  intro es
  induction es with
  | nil => intro j j2 src h; rfl
  | cons e rest ih =>
    intro j j2 src h
    cases j with
    | zero =>
      cases j2 with
      | zero => exact absurd rfl h
      | succ j2 => rfl
    | succ j =>
      cases j2 with
      | zero => rfl
      | succ j2 => simpa [writeInto, List.get?] using ih j j2 src (by omega)

theorem writeInto_get?_self : ∀ (es : List (Element V)) (j : Nat) (src : Series V) (e : Element V),
    es.get? j = some e → (writeInto es j src).get? j = some ⟨writeSeries e.value src, e.group⟩ := by
  intro es
  induction es with
  | nil => intro j src e h; simp [List.get?] at h
  | cons a rest ih =>
    intro j src e h
    cases j with
    | zero =>
      simp [List.get?] at h
      simp [writeInto, List.get?, h]
    | succ j =>
      have := ih j src e (by simpa [List.get?] using h)
      simpa [writeInto, List.get?] using this

theorem writeInto_append_last : ∀ (es : List (Element V)) (r : Element V) (src : Series V),
    writeInto (es ++ [r]) es.length src = es ++ [⟨writeSeries r.value src, r.group⟩] := by
  intro es
  induction es with
  | nil => intro r src; rfl
  | cons e rest ih =>
    intro r src
    simpa [writeInto] using ih r src

theorem findGroupIdx_some : ∀ (es : List (Element V)) (g : TagSet) (base j : Nat),
    findGroupIdx g es base = some j →
    base ≤ j ∧
    ∃ ex, es.get? (j - base) = some ex ∧ TagSet.Equal g ex.group = true ∧
      ∀ j2 ex2, j2 < j - base → es.get? j2 = some ex2 → TagSet.Equal g ex2.group = false := by
  intro es
  induction es with
  | nil => intro g base j h; simp [findGroupIdx] at h
  | cons e rest ih =>
    intro g base j h
    by_cases he : TagSet.Equal g e.group = true
    · have hj : base = j := by simpa [findGroupIdx, he] using h
      subst hj
      refine ⟨Nat.le_refl base, e, ?_, he, ?_⟩
      · simp [List.get?]
      · intro j2 ex2 hj2
        omega
    · have h' : findGroupIdx g rest (base + 1) = some j := by
        simpa [findGroupIdx, he] using h
      obtain ⟨hle, ex, hget, heq, hmin⟩ := ih g (base + 1) j h'
      refine ⟨by omega, ex, ?_, heq, ?_⟩
      · have hstep : j - base = (j - (base + 1)) + 1 := by omega
        rw [hstep]
        simpa [List.get?] using hget
      · intro j2 ex2 hj2 hget2
        cases j2 with
        | zero =>
          simp [List.get?] at hget2
          rw [← hget2]
          simpa using he
        | succ j2' =>
          exact hmin j2' ex2 (by omega) (by simpa [List.get?] using hget2)

/-- C8: one merge step of the band loop.  If no accumulated element's group
equals the new result's group, the result is appended (its series intact);
if the first match by position is at index `j`, only index `j` changes, and
its merged series answers every timestamp with the new result's value when
the result's series has one — later window wins — and the existing value
otherwise — union of timestamps.  The matched index is the first whose group
the result's group equals. -/
theorem mergeOne_spec (elems : List (Element V)) (r : Element V)
    (hnd : (r.value.map Prod.fst).Nodup) :
    (findGroupIdx r.group elems 0 = none →
      ∃ el, mergeOne elems r = elems ++ [el] ∧ el.group = r.group ∧
        ∀ ts, lookupPairs ts el.value = lookupPairs ts r.value) ∧
    (∀ j old, findGroupIdx r.group elems 0 = some j → elems.get? j = some old →
      TagSet.Equal r.group old.group = true ∧
      (∀ j2 ex2, j2 < j → elems.get? j2 = some ex2 → TagSet.Equal r.group ex2.group = false) ∧
      (mergeOne elems r).length = elems.length ∧
      (∀ j2, j2 ≠ j → (mergeOne elems r).get? j2 = elems.get? j2) ∧
      ∃ el, (mergeOne elems r).get? j = some el ∧ el.group = old.group ∧
        ∀ ts, lookupPairs ts el.value =
          match lookupPairs ts r.value with
          | some v => some v
          | none => lookupPairs ts old.value) := by
  constructor
  · intro hnone
    refine ⟨⟨writeSeries r.value r.value, r.group⟩, ?_, rfl, ?_⟩
    · show mergeOne elems r = _
      rw [mergeOne, hnone]
      exact writeInto_append_last elems r r.value
    · intro ts
      rw [writeSeries_lookupPairs _ _ _ hnd]
      cases h : lookupPairs ts r.value <;> simp
  · intro j old hsome hold
    obtain ⟨-, ex, hget, heq, hmin⟩ := findGroupIdx_some elems r.group 0 j hsome
    rw [Nat.sub_zero] at hget hmin
    have hex : ex = old := by
      rw [hold] at hget
      exact (Option.some.inj hget).symm
    rw [hex] at heq
    have hm : mergeOne elems r = writeInto elems j r.value := by
      rw [mergeOne, hsome]
    refine ⟨heq, hmin, ?_, ?_, ?_⟩
    · rw [hm]; exact writeInto_length elems j r.value
    · intro j2 hj2
      rw [hm]
      exact writeInto_get?_ne elems j j2 r.value hj2
    · refine ⟨⟨writeSeries old.value r.value, old.group⟩, ?_, rfl, ?_⟩
      · rw [hm]
        exact writeInto_get?_self elems j r.value old hold
      · intro ts
        exact writeSeries_lookupPairs old.value r.value ts hnd

/-- Witness for C8: merging `mR` (timestamps 2 and 3) into the accumulated
set `mElems` (one element, same tag-set, timestamps 1 and 2) updates that
element in place to the union series with the new value winning at the
colliding timestamp 2. -/
theorem mergeOne_spec_witness :
    (mergeOne mElems mR).get? 0 = some mMerged ∧
    mMerged.group = mOld.group ∧
    lookupPairs 1 mMerged.value = some 10 ∧
    lookupPairs 2 mMerged.value = some 99 ∧
    lookupPairs 3 mMerged.value = some 30 := by
  obtain ⟨-, -, -, -, el, h1, h2, h3⟩ :=
    (mergeOne_spec mElems mR (by decide)).2 0 mOld (by decide) (by decide)
  have hm : (mergeOne mElems mR).get? 0 = some mMerged := by decide
  have hel : el = mMerged := Option.some.inj (h1.symm.trans hm)
  subst hel
  exact ⟨h1, h2, (h3 1).trans (by decide), (h3 2).trans (by decide), (h3 3).trans (by decide)⟩

end Graphite

namespace Graphite

variable {V : Type}

theorem bandLoop_audit (env : Env V) (query : String) (d p : Int) (ft : List String) :
    ∀ (fuel i : Nat) (now : Time) (elems : List (Element V)) (audit : List Request),
      ∃ k, k ≤ fuel ∧
        (bandLoop env query d p ft fuel i now elems audit).2 =
          audit ++ windowReqs query d p k now ∧
        (exceptOk (bandLoop env query d p ft fuel i now elems audit).1 = true → k = fuel) := by
  intro fuel
  induction fuel with
  | zero =>
    intro i now elems audit
    exact ⟨0, Nat.le_refl 0, by simp [bandLoop, windowReqs], fun _ => rfl⟩
  | succ n ih =>
    intro i now elems audit
    cases htr : env.transport ⟨query, now - p - d, now - p⟩ with
    | error msg =>
      refine ⟨1, by omega, ?_, ?_⟩
      · simp [bandLoop, htr, windowReqs]
      · intro hok
        simp [bandLoop, htr, exceptOk] at hok
    | ok s =>
      cases hpr : parseGraphiteResponse env ⟨query, now - p - d, now - p⟩ s ft with
      | error pe =>
        refine ⟨1, by omega, ?_, ?_⟩
        · simp [bandLoop, htr, hpr, windowReqs]
        · intro hok
          simp [bandLoop, htr, hpr, exceptOk] at hok
      | ok results =>
        have hstep : bandLoop env query d p ft (n + 1) i now elems audit =
            bandLoop env query d p ft n (i + 1) (now - p)
              (if i = 0 then results else results.foldl mergeOne elems)
              (audit ++ [⟨query, now - p - d, now - p⟩]) := by
          simp [bandLoop, htr, hpr]
        obtain ⟨k, hk, haud, hok⟩ := ih (i + 1) (now - p)
          (if i = 0 then results else results.foldl mergeOne elems)
          (audit ++ [⟨query, now - p - d, now - p⟩])
        refine ⟨k + 1, by omega, ?_, ?_⟩
        · rw [hstep, haud]
          simp [windowReqs]
        · intro hok2
          rw [hstep] at hok2
          have := hok hok2
          omega

theorem Band_parts (env : Env V) (q du pe f : String) (num : Int) (d p : Int)
    (hd : env.parseDuration du = some d) (hp : env.parseDuration pe = some p) :
    (Band env q du pe f num).2 =
      (bandLoop env q d p (splitDot f) num.toNat 0 env.now [] []).2 ∧
    (exceptOk (Band env q du pe f num).1 = true →
      exceptOk (bandLoop env q d p (splitDot f) num.toNat 0 env.now [] []).1 = true) := by
  simp only [Band, hd, hp]
  cases hbl : bandLoop env q d p (splitDot f) num.toNat 0 env.now [] [] with
  | mk res audit =>
    cases res with
    | error e => simp [exceptOk]
    | ok elems =>
      by_cases hb : (num < 1 ∨ num > 100) ∧ num.toNat = 0
      · simp only [Int.toNat_eq_zero] at hb
        simp [hb, exceptOk]
      · simp only [Int.toNat_eq_zero] at hb
        simp [hb, exceptOk]

theorem windowReqs_get (query : String) (d p : Int) :
    ∀ (k : Nat) (now : Time) (j : Nat) (r : Request),
      (windowReqs query d p k now).get? j = some r →
      r.target = query ∧ r.endT = now - ((j : Int) + 1) * p ∧ r.start = r.endT - d := by
  intro k
  induction k with
  | zero => intro now j r h; simp [windowReqs] at h
  | succ n ih =>
    intro now j r h
    cases j with
    | zero =>
      simp only [windowReqs, List.get?, Option.some.injEq] at h
      subst h
      refine ⟨rfl, ?_, rfl⟩
      show now - p = now - ((0 : Nat) + 1 : Int) * p
      push_cast
      ring
    | succ j =>
      have h' : (windowReqs query d p n (now - p)).get? j = some r := by
        simpa [windowReqs, List.get?] using h
      obtain ⟨h1, h2, h3⟩ := ih (now - p) j r h'
      refine ⟨h1, ?_, h3⟩
      rw [h2]
      push_cast
      ring

/-- C2 (amended): every request the band loop issues at position `j` ends at
`now - (j + 1) * P` — the loop steps `now` back by the period before issuing
each window, including the first, so window 0 ends at `now - P`, not at
`now` — and starts at the end minus the lookback `D`. -/
theorem band_window_bounds (env : Env V) (q du pe f : String) (num : Int) (d p : Int)
    (hd : env.parseDuration du = some d) (hp : env.parseDuration pe = some p)
    (j : Nat) (r : Request)
    (hr : (Band env q du pe f num).2.get? j = some r) :
    r.target = q ∧ r.endT = env.now - ((j : Int) + 1) * p ∧ r.start = r.endT - d := by
  obtain ⟨k, -, haud, -⟩ := bandLoop_audit env q d p (splitDot f) num.toNat 0 env.now [] []
  rw [(Band_parts env q du pe f num d p hd hp).1, haud] at hr
  simp only [List.nil_append] at hr
  exact windowReqs_get q d p k env.now j r hr

/-- Witness for the amended C2: over `env3` with `num = 2`, the request at
position 1 ends at `now - 2·3600` and spans one hour. -/
theorem band_window_bounds_witness :
    (⟨"m", -10800, -7200⟩ : Request).target = "m" ∧
    (⟨"m", -10800, -7200⟩ : Request).endT = env3.now - (((1 : Nat) : Int) + 1) * 3600 ∧
    (⟨"m", -10800, -7200⟩ : Request).start = (⟨"m", -10800, -7200⟩ : Request).endT - 3600 :=
  band_window_bounds env3 "m" "1h" "1h" "" 2 3600 3600 rfl rfl 1 ⟨"m", -10800, -7200⟩ rfl

/-- Counterexample to C2 as stated: in a successful one-window band call over
`env3` (where `now = 0` and `P = 3600`), the window executed at iteration 0
has end instant `now - 3600`, not `now`. -/
theorem band_first_window_end_not_now :
    exceptOk (Band env3 "m" "1h" "1h" "" 1).1 = true ∧
    (Band env3 "m" "1h" "1h" "" 1).2.map Request.endT = [env3.now - 3600] ∧
    env3.now - 3600 ≠ env3.now := ⟨rfl, rfl, by decide⟩

/-- C3: a successful band call with `num = 3` and one-hour lookback and
period issues exactly the three windows `[now-2h, now-1h]`, `[now-3h,
now-2h]`, `[now-4h, now-3h]`, in that order. -/
theorem band_three_windows (env : Env V) (q du pe f : String)
    (hd : env.parseDuration du = some 3600) (hp : env.parseDuration pe = some 3600)
    (hok : exceptOk (Band env q du pe f 3).1 = true) :
    (Band env q du pe f 3).2 =
      [⟨q, env.now - 7200, env.now - 3600⟩,
       ⟨q, env.now - 10800, env.now - 7200⟩,
       ⟨q, env.now - 14400, env.now - 10800⟩] := by
  obtain ⟨k, -, haud, hkf⟩ :=
    bandLoop_audit env q 3600 3600 (splitDot f) (Int.toNat 3) 0 env.now [] []
  have h2 := (Band_parts env q du pe f 3 3600 3600 hd hp).2 hok
  have hk3 : k = 3 := hkf h2
  subst hk3
  rw [(Band_parts env q du pe f 3 3600 3600 hd hp).1, haud]
  have hw : windowReqs q 3600 3600 3 env.now =
      [⟨q, env.now - 3600 - 3600, env.now - 3600⟩,
       ⟨q, env.now - 3600 - 3600 - 3600, env.now - 3600 - 3600⟩,
       ⟨q, env.now - 3600 - 3600 - 3600 - 3600, env.now - 3600 - 3600 - 3600⟩] := rfl
  have e1 : env.now - 3600 - 3600 = env.now - 7200 := by ring
  have e2 : env.now - 7200 - 3600 = env.now - 10800 := by ring
  have e3 : env.now - 10800 - 3600 = env.now - 14400 := by ring
  rw [List.nil_append, hw, e1, e2, e3]

/-- Witness for C3 over `env3` (which answers every window with one series),
instantiating the three windows at `now = 0`. -/
theorem band_three_windows_witness :
    (Band env3 "m" "1h" "1h" "" 3).2 =
      [⟨"m", env3.now - 7200, env3.now - 3600⟩,
       ⟨"m", env3.now - 10800, env3.now - 7200⟩,
       ⟨"m", env3.now - 14400, env3.now - 10800⟩] :=
  band_three_windows env3 "m" "1h" "1h" "" rfl rfl rfl

/-- C1 (exhibiting the code bug): with valid durations and a transport that
answers every window, a band call with `num = 101` does not fail before
querying — the bounds check stores a validation error but does not return,
the window loop runs and its first query assignment overwrites the error —
so 101 queries are issued and the call returns success. -/
theorem band_num_101_executes_queries :
    exceptOk (Band env3 "m" "1h" "1h" "" 101).1 = true ∧
    (Band env3 "m" "1h" "1h" "" 101).2.length = 101 := ⟨rfl, rfl⟩

end Graphite

namespace Graphite

variable {V : Type}

/-- C9: a single-window query with a valid lookback and an end offset that is
either the empty string (zero offset) or a valid duration builds exactly one
request spanning `[now - lookback, now - offset]`, and on success the decoded
elements are returned as-is, unmerged and in decode order. -/
theorem query_single_window (env : Env V) (q sdur edur f : String) (sd ed : Int)
    (hsd : env.parseDuration sdur = some sd)
    (hed : (edur = "" ∧ ed = 0) ∨ (edur ≠ "" ∧ env.parseDuration edur = some ed)) :
    (Query env q sdur edur f).2 = [⟨q, env.now - sd, env.now - ed⟩] ∧
    ∀ vs, (Query env q sdur edur f).1 = .ok vs →
      ∃ s, env.transport ⟨q, env.now - sd, env.now - ed⟩ = .ok s ∧
        parseGraphiteResponse env ⟨q, env.now - sd, env.now - ed⟩ s (splitDot f) = .ok vs.elements := by
  have hed' : (if edur = "" then some 0 else env.parseDuration edur) = some ed := by
    rcases hed with ⟨h1, h2⟩ | ⟨h1, h2⟩
    · subst h2
      simp [h1]
    · simp [h1, h2]
  simp only [Query, hsd, hed']
  cases htr : env.transport ⟨q, env.now - sd, env.now - ed⟩ with
  | error msg =>
    refine ⟨rfl, fun vs h => ?_⟩
    simp at h
  | ok s =>
    dsimp only
    cases hpr : parseGraphiteResponse env ⟨q, env.now - sd, env.now - ed⟩ s (splitDot f) with
    | error pe =>
      refine ⟨rfl, fun vs h => ?_⟩
      simp at h
    | ok results =>
      refine ⟨rfl, fun vs h => ⟨s, rfl, ?_⟩⟩
      simp only [Except.ok.injEq] at h
      rw [hpr, ← h]

/-- Witness for C9 over `env3`: lookback `1h`, empty end offset. -/
theorem query_single_window_witness :
    (Query env3 "m" "1h" "" "").2 = [⟨"m", env3.now - 3600, env3.now - 0⟩] :=
  (query_single_window env3 "m" "1h" "" "" 3600 0 rfl (Or.inl ⟨rfl, rfl⟩)).1

/-- C10: every ValueSet a band call returns successfully has both join flags
set, unconditionally; every ValueSet a single-window query returns
successfully has both flags clear.  The flags depend only on which operation
ran, not on any input. -/
theorem band_query_flags (env env2 : Env V) (q du pe f q2 sdu edu f2 : String) (num : Int) :
    (∀ vs, (Band env q du pe f num).1 = .ok vs →
      vs.ignoreUnjoined = true ∧ vs.ignoreOtherUnjoined = true) ∧
    (∀ vs, (Query env2 q2 sdu edu f2).1 = .ok vs →
      vs.ignoreUnjoined = false ∧ vs.ignoreOtherUnjoined = false) := by
  constructor
  · intro vs h
    cases hd : env.parseDuration du with
    | none => simp [Band, hd] at h
    | some d =>
      cases hp : env.parseDuration pe with
      | none => simp [Band, hd, hp] at h
      | some p =>
        simp only [Band, hd, hp] at h
        cases hbl : bandLoop env q d p (splitDot f) num.toNat 0 env.now [] [] with
        | mk res audit =>
          rw [hbl] at h
          cases res with
          | error e => simp at h
          | ok elems =>
            dsimp only at h
            by_cases hb : (num < 1 ∨ num > 100) ∧ num.toNat = 0
            · rw [if_pos hb] at h
              simp at h
            · rw [if_neg hb] at h
              simp only [Except.ok.injEq] at h
              rw [← h]
              exact ⟨rfl, rfl⟩
  · intro vs h
    cases hsd : env2.parseDuration sdu with
    | none => simp [Query, hsd] at h
    | some sd =>
      cases hed : (if edu = "" then some 0 else env2.parseDuration edu) with
      | none => simp [Query, hsd, hed] at h
      | some ed =>
        simp only [Query, hsd, hed] at h
        cases htr : env2.transport ⟨q2, env2.now - sd, env2.now - ed⟩ with
        | error msg => rw [htr] at h; simp at h
        | ok s =>
          rw [htr] at h
          dsimp only at h
          cases hpr : parseGraphiteResponse env2 ⟨q2, env2.now - sd, env2.now - ed⟩ s (splitDot f2) with
          | error pe => rw [hpr] at h; simp at h
          | ok results =>
            rw [hpr] at h
            simp only [Except.ok.injEq] at h
            rw [← h]
            exact ⟨rfl, rfl⟩

/-- Witness for C10: the concrete successful band and query runs over `env3`
return exactly these ValueSets, whose flags the theorem then reads off. -/
theorem band_query_flags_witness :
    ((⟨[⟨[], ⟨[("key", "t")]⟩⟩], true, true⟩ : ValueSet Int).ignoreUnjoined = true ∧
     (⟨[⟨[], ⟨[("key", "t")]⟩⟩], true, true⟩ : ValueSet Int).ignoreOtherUnjoined = true) ∧
    ((⟨[⟨[], ⟨[("key", "t")]⟩⟩], false, false⟩ : ValueSet Int).ignoreUnjoined = false ∧
     (⟨[⟨[], ⟨[("key", "t")]⟩⟩], false, false⟩ : ValueSet Int).ignoreOtherUnjoined = false) :=
  ⟨(band_query_flags env3 env3 "m" "1h" "1h" "" "m" "1h" "" "" 1).1 _ rfl,
   (band_query_flags env3 env3 "m" "1h" "1h" "" "m" "1h" "" "" 1).2 _ rfl⟩

end Graphite
